import Mathlib

/-!
# Verification of the distilabel accelerate/OpenAI pipeline example

Shallow embedding of `src/examples/pipeline-accelerate-and-openai.py` and of the
abstracted distributed generate-then-label pipeline engine specified in `spec.md`.
The script itself is configuration and sequencing glue: the partitioning,
checkpointing, labelling and gathering machinery lives in external libraries, so
those components are modelled from the specification (each such definition is
marked `Modelled from the spec:`); the two pieces of control flow that are in the
script itself (`get_current_device` and the publish/argilla/barrier tail of the
main block) are embedded directly from the source.
-/

namespace Distilabel

/-- Embedding of `get_current_device` (source lines 32-34):
`return Accelerator().local_process_index if torch.cuda.is_available() else "cpu"`.
The untyped Python return value (an `int` or the string `"cpu"`) is modelled as a
sum type; `cudaAvailable` models `torch.cuda.is_available()` and
`localProcessIndex` models `Accelerator().local_process_index`. -/
def get_current_device (cudaAvailable : Bool) (localProcessIndex : Nat) : Nat ⊕ String :=
  if cudaAvailable then Sum.inl localProcessIndex else Sum.inr "cpu"

/-- Observable steps of the tail of the script's main block (source lines 85-115). -/
inductive ScriptEvent where
  | hubPush
  | argillaInit
  | argillaPush
  | barrier
deriving DecidableEq, Repr

/-- Embedding of the `try: import argilla ... except ImportError: pass` block
(source lines 94-113). When the `argilla` import succeeds the block initialises
argilla and pushes the converted dataset; when the import raises `ImportError`
the handler discards the exception and the block contributes nothing. -/
def argillaBlock (argillaImportOk : Bool) : List ScriptEvent :=
  if argillaImportOk then [ScriptEvent.argillaInit, ScriptEvent.argillaPush] else []

/-- Embedding of the tail of the main block (source lines 85-115): the main
process pushes the gathered dataset to the Hub and then runs the argilla block;
every process then reaches `accelerator.wait_for_everyone()`. -/
def scriptTail (isMainProcess : Bool) (argillaImportOk : Bool) : List ScriptEvent :=
  (if isMainProcess then ScriptEvent.hubPush :: argillaBlock argillaImportOk else [])
    ++ [ScriptEvent.barrier]

/-- Tests whether a script event belongs to the argilla publishing step. -/
def isArgillaEvent : ScriptEvent → Bool
  | ScriptEvent.argillaInit => true
  | ScriptEvent.argillaPush => true
  | _ => false

/-- Modelled from the spec: the error taxonomy entry for an invalid partition
count (`ConfigError`, spec sections 4.1 and 7); the partitioner and runner are
absent from `src/`, only the `accelerator.split_between_processes` call site is. -/
inductive ConfigError where
  | invalidWorkerCount
deriving DecidableEq, Repr

/-- Modelled from the spec: the contiguous-block splitting strategy of
`WorkPartitioner` (spec section 4.1). `splitEven xs p` cuts `xs` into `p`
contiguous blocks, the first block taking the ceiling of an even share and the
rest splitting the remainder recursively. -/
def splitEven : List α → Nat → List (List α)
  | _, 0 => []
  | xs, p + 1 =>
      xs.take ((xs.length + p) / (p + 1)) ::
        splitEven (xs.drop ((xs.length + p) / (p + 1))) p

/-- Modelled from the spec: `WorkPartitioner` (spec section 4.1), absent from
`src/` (the script delegates to `accelerator.split_between_processes`). Given the
ordered input ids and a worker count `P`, it fails with `ConfigError` when
`P = 0` or `P > N`, and otherwise returns the `P` contiguous blocks. -/
def partitionWork (inputs : List Nat) (P : Nat) :
    Except ConfigError (List (List Nat)) :=
  if P = 0 ∨ inputs.length < P then Except.error ConfigError.invalidWorkerCount
  else Except.ok (splitEven inputs P)

theorem splitEven_length (p : Nat) : ∀ xs : List α, (splitEven xs p).length = p := by
  induction p with
  | zero => intro xs; rfl
  | succ p ih =>
      intro xs
      simp [splitEven, ih]

theorem splitEven_flatten (p : Nat) :
    ∀ xs : List α, (splitEven xs (p + 1)).flatten = xs := by
  induction p with
  | zero =>
      intro xs
      simp [splitEven]
  | succ p ih =>
      intro xs
      rw [splitEven, List.flatten_cons, ih, List.take_append_drop]

/-- Modelled from the spec: checkpoint stage markers (spec section 3,
`CheckpointEntry`: highest stage completed, "generated" or "labelled"). -/
inductive Stage where
  | generated
  | labelled
deriving DecidableEq, Repr

/-- Modelled from the spec: the value a resumed checkpoint store yields for an
input id: the highest completed stage together with the stored result for that
stage (spec sections 3 and 4.4). `G` is the generation result payload and `L`
the label result payload. -/
inductive Progress (G L : Type) where
  | generated (g : G)
  | labelled (l : L)
deriving DecidableEq, Repr

/-- Modelled from the spec: the opaque external collaborators (spec section 6):
a local inference backend producing a generation result per input id, and a
remote judge backend producing a label from an id and its generation result. -/
structure Backends (G L : Type) where
  gen : Nat → G
  lab : Nat → G → L

/-- Observable actions of the modelled pipeline runner: backend invocations,
checkpoint writes, gathering completion and the publish call (tagged with the
worker performing it). -/
inductive Event where
  | genCall (id : Nat)
  | labelCall (id : Nat)
  | checkpointWrite (id : Nat) (st : Stage)
  | gatherDone
  | publish (worker : Nat)
deriving DecidableEq, Repr

/-- Modelled from the spec: the per-input behaviour of `PipelineRunner` under a
resumed checkpoint (spec sections 4.4 and 4.5): an input already `labelled` is
skipped entirely; an input recorded as `generated` goes straight to labelling,
re-using the stored generation result; otherwise the input is generated, then
labelled, checkpointing after each completed stage. Returns the emitted events
and the input's label. -/
def runInput (ck : Nat → Option (Progress G L)) (b : Backends G L) (id : Nat) :
    List Event × L :=
  match ck id with
  | some (Progress.labelled l) => ([], l)
  | some (Progress.generated g) =>
      ([Event.labelCall id, Event.checkpointWrite id Stage.labelled], b.lab id g)
  | none =>
      ([Event.genCall id, Event.checkpointWrite id Stage.generated,
        Event.labelCall id, Event.checkpointWrite id Stage.labelled],
        b.lab id (b.gen id))

/-- Modelled from the spec: a worker running its partition input by input
(spec section 4.5), concatenating the emitted events and tagging every label
with its input id. -/
def runWorker (ck : Nat → Option (Progress G L)) (b : Backends G L) :
    List Nat → List Event × List (Nat × L)
  | [] => ([], [])
  | id :: ids =>
      ((runInput ck b id).1 ++ (runWorker ck b ids).1,
        (id, (runInput ck b id).2) :: (runWorker ck b ids).2)

/-- Modelled from the spec: find the result tagged with a given input id among
the per-worker results (each result carries its input id, spec section 5). -/
def lookupResult (id : Nat) : List (Nat × L) → Option L
  | [] => none
  | (j, l) :: rest => if j = id then some l else lookupResult id rest

/-- Modelled from the spec: `ResultGatherer` (spec section 4.6), absent from
`src/` (the script delegates to `accelerate.utils.gather_object`): reassemble
the tagged results in original input order, not worker-emission order. -/
def gatherResults (order : List Nat) (results : List (Nat × L)) : List (Nat × L) :=
  order.filterMap (fun id => (lookupResult id results).map (fun l => (id, l)))

/-- Modelled from the spec: a whole run (spec sections 2, 4.5, 4.6 and 6):
partition the inputs, failing with `ConfigError` before any work starts when
the worker count is invalid; otherwise run every worker over its partition,
gather the tagged results back into original input order, and have the elected
final publisher (worker 0, the main process) invoke the publishing sink once. -/
def runPipeline (inputs : List Nat) (P : Nat)
    (ck : Nat → Option (Progress G L)) (b : Backends G L) :
    List Event × Except ConfigError (List (Nat × L)) :=
  match partitionWork inputs P with
  | Except.error e => ([], Except.error e)
  | Except.ok parts =>
      ((parts.map (fun part => (runWorker ck b part).1)).flatten
          ++ [Event.gatherDone, Event.publish 0],
        Except.ok (gatherResults inputs
          (parts.map (fun part => (runWorker ck b part).2)).flatten))

/-- Modelled from the spec: the order on stage markers ("generated" before
"labelled", spec sections 3 and 4.4): `stageLe a b` holds when stage `a` is no
higher than stage `b`. -/
def stageLe : Stage → Stage → Bool
  | Stage.generated, _ => true
  | Stage.labelled, Stage.labelled => true
  | Stage.labelled, Stage.generated => false

/-- Modelled from the spec: `CheckpointStore.record` (spec section 4.4), absent
from `src/` (the script only passes `enable_checkpoints=True`): the durable
state is the append-only log of recorded `(id, stage, result)` entries. -/
def record (log : List (Nat × Stage × R)) (id : Nat) (st : Stage) (r : R) :
    List (Nat × Stage × R) :=
  log ++ [(id, st, r)]

/-- Modelled from the spec: folding one recorded entry into the resumed
mapping: an entry replaces the stored value for its id only when it is for a
strictly higher stage than the one already present (the highest completed
stage wins, so re-recording an already-present stage changes nothing). -/
def applyEntry (m : Nat → Option (Stage × R)) (e : Nat × Stage × R) :
    Nat → Option (Stage × R) :=
  match m e.1 with
  | some (st0, _) =>
      if stageLe e.2.1 st0 then m
      else fun i => if i = e.1 then some (e.2.1, e.2.2) else m i
  | none => fun i => if i = e.1 then some (e.2.1, e.2.2) else m i

/-- Modelled from the spec: `CheckpointStore.resume()` (spec section 4.4):
reconstruct the mapping from input id to the last completed stage and its
stored result from the recorded log. -/
def resume (log : List (Nat × Stage × R)) : Nat → Option (Stage × R) :=
  log.foldl applyEntry (fun _ => none)

/-- Modelled from the spec: the outcome of labelling one input: a label result,
or the per-input failure marker reported when retries exhaust (spec 4.3). -/
inductive LabelOutcome (L : Type) where
  | success (l : L)
  | failure
deriving DecidableEq, Repr

/-- Tests whether a label outcome is the per-input failure marker. -/
def isFailure : LabelOutcome L → Bool
  | LabelOutcome.failure => true
  | _ => false

/-- Modelled from the spec: the bounded retry loop of `LabellingStage` (spec
section 4.3). `call id attempt` models one remote call for input `id` at the
given attempt number, `none` standing for a transient error; the loop retries
until a call succeeds or the attempt budget `fuel` is exhausted. -/
def retryCall (call : Nat → Nat → Option L) (id : Nat) : Nat → Nat → Option L
  | _, 0 => none
  | attempt, fuel + 1 =>
      match call id attempt with
      | some l => some l
      | none => retryCall call id (attempt + 1) fuel

/-- Modelled from the spec: labelling one input (spec section 4.3): run the
bounded retry loop with `retryLimit + 1` total attempts and report either the
label or the per-input failure marker, tagged with the input id. -/
def labelOne (call : Nat → Nat → Option L) (retryLimit : Nat) (id : Nat) :
    Nat × LabelOutcome L :=
  (id, match retryCall call id 0 (retryLimit + 1) with
       | some l => LabelOutcome.success l
       | none => LabelOutcome.failure)

/-- Modelled from the spec: `LabellingStage.label` over a batch (spec section
4.3), absent from `src/` (the script merely configures `OpenAILLM` with a
thread pool): each input gets at most `retryLimit + 1` remote-call attempts
and, on exhaustion, a per-input failure marker; every input of the batch
produces exactly one outcome. -/
def labelBatch (call : Nat → Nat → Option L) (retryLimit : Nat)
    (batch : List Nat) : List (Nat × LabelOutcome L) :=
  batch.map (labelOne call retryLimit)

/-- Modelled from the spec: the separate, immutably-typed publishable record
produced for the Argilla sink, carrying the source id and payload of one
gathered result (spec section 9: an explicit conversion, never in-place
retyping of the gathered object). -/
structure PublishableRecord (L : Type) where
  sourceId : Nat
  payload : L
deriving DecidableEq, Repr

/-- Modelled from the spec: the explicit conversion function from a gathered
result to its publishable (Argilla) representation (spec section 9). -/
def toPublishable (r : Nat × L) : PublishableRecord L :=
  { sourceId := r.1, payload := r.2 }

/-- Projection back from a publishable record to the gathered pair it was
converted from. -/
def ofPublishable (r : PublishableRecord L) : Nat × L :=
  (r.sourceId, r.payload)

/-- Modelled from the spec: the state around publishing: the gathered, ordered
collection and the optional publishable representation handed to the sink. -/
structure PublishState (L : Type) where
  gathered : List (Nat × L)
  published : Option (List (PublishableRecord L))
deriving DecidableEq, Repr

/-- Modelled from the spec: producing the publishable representation (spec
section 9): convert each gathered result with `toPublishable`, leaving the
gathered collection itself untouched. -/
def publishConvert (st : PublishState L) : PublishState L :=
  { st with published := some (st.gathered.map toPublishable) }

theorem stageLe_refl (st : Stage) : stageLe st st = true := by
  cases st <;> rfl

theorem applyEntry_same {R : Type} (m : Nat → Option (Stage × R))
    (e : Nat × Stage × R) : applyEntry (applyEntry m e) e = applyEntry m e := by
  obtain ⟨id, st, r⟩ := e
  cases h : m id with
  | none => simp [applyEntry, h, stageLe_refl]
  | some p =>
      obtain ⟨st0, r0⟩ := p
      by_cases hle : stageLe st st0 = true
      · simp [applyEntry, h, hle]
      · simp [applyEntry, h, hle, stageLe_refl]

/-- C1: for every input collection of N distinct ids and every worker count P
with 1 ≤ P ≤ N, the work partitioner succeeds and produces exactly P pairwise
disjoint ordered subsets whose concatenation in worker-index order equals the
original N inputs in their original order: no id appears in two partitions and
none is dropped. -/
theorem partitionWork_correct (inputs : List Nat) (P : Nat)
    (h1 : 1 ≤ P) (h2 : P ≤ inputs.length) (hnd : inputs.Nodup) :
    ∃ parts, partitionWork inputs P = Except.ok parts ∧
      parts.length = P ∧ parts.flatten = inputs ∧
      parts.Pairwise List.Disjoint := by
  have hP : P ≠ 0 := Nat.one_le_iff_ne_zero.mp h1
  obtain ⟨p, rfl⟩ := Nat.exists_eq_succ_of_ne_zero hP
  have hflat : (splitEven inputs (p + 1)).flatten = inputs :=
    splitEven_flatten p inputs
  refine ⟨splitEven inputs (p + 1), ?_, splitEven_length (p + 1) inputs,
    hflat, ?_⟩
  · have hcond : ¬ (p + 1 = 0 ∨ inputs.length < p + 1) := by
      push_neg
      exact ⟨hP, h2⟩
    unfold partitionWork
    rw [if_neg hcond]
  · have hjn : (splitEven inputs (p + 1)).flatten.Nodup := by
      rw [hflat]; exact hnd
    exact (List.nodup_flatten.mp hjn).2

/-- Witness for C1: five inputs split between two workers. -/
theorem partitionWork_correct_witness :
    ∃ parts, partitionWork [10, 11, 12, 13, 14] 2 = Except.ok parts ∧
      parts.length = 2 ∧ parts.flatten = [10, 11, 12, 13, 14] ∧
      parts.Pairwise List.Disjoint :=
  partitionWork_correct [10, 11, 12, 13, 14] 2 (by decide) (by decide)
    (by decide)

/-- C5: checkpoint writes are idempotent: for every log, input id, stage
marker and result, recording the same (id, stage, result) twice leaves the
store's resume() output equal to the output after a single call. -/
theorem resume_record_idempotent {R : Type} (log : List (Nat × Stage × R))
    (id : Nat) (st : Stage) (r : R) :
    resume (record (record log id st r) id st r)
      = resume (record log id st r) := by
  simp only [resume, record, List.foldl_append, List.foldl_cons, List.foldl_nil]
  exact applyEntry_same _ _

/-- C6: whenever the worker count P is out of range (P = 0 or P > N), the run
fails with ConfigError before any work starts: the event trace is empty, so no
generation and no labelling is performed. -/
theorem runPipeline_configError {G L : Type} (inputs : List Nat) (P : Nat)
    (ck : Nat → Option (Progress G L)) (b : Backends G L)
    (h : P = 0 ∨ inputs.length < P) :
    runPipeline inputs P ck b
      = ([], Except.error ConfigError.invalidWorkerCount) := by
  unfold runPipeline partitionWork
  rw [if_pos h]

/-- Witness for C6: three inputs and five workers yield ConfigError and an
empty trace. -/
theorem runPipeline_configError_witness :
    runPipeline [0, 1, 2] 5 (fun _ => (none : Option (Progress Nat Nat)))
      { gen := fun _ => 0, lab := fun _ _ => 0 }
      = ([], Except.error ConfigError.invalidWorkerCount) :=
  runPipeline_configError [0, 1, 2] 5 _ _ (Or.inr (by decide))

/-- C8: producing the publishable (Argilla) representation never retypes the
gathered collection in place: the conversion produces separate publishable
records, the gathered collection is unchanged by the conversion, and each
publishable record is a faithful copy of the gathered pair it converts. -/
theorem publishConvert_frame {L : Type} (st : PublishState L) :
    (publishConvert st).gathered = st.gathered ∧
    (publishConvert st).published = some (st.gathered.map toPublishable) ∧
    ∀ r : Nat × L, ofPublishable (toPublishable r) = r :=
  ⟨rfl, rfl, fun _ => rfl⟩

/-- C9: get_current_device is total and two-valued: it returns the local
process index when CUDA is available, the string "cpu" when it is not, and
never returns any other value. -/
theorem get_current_device_spec (localProcessIndex : Nat) :
    get_current_device true localProcessIndex = Sum.inl localProcessIndex ∧
    get_current_device false localProcessIndex = Sum.inr "cpu" ∧
    ∀ cudaAvailable : Bool,
      get_current_device cudaAvailable localProcessIndex
          = Sum.inl localProcessIndex ∨
      get_current_device cudaAvailable localProcessIndex = Sum.inr "cpu" := by
  refine ⟨rfl, rfl, fun c => ?_⟩
  cases c
  · exact Or.inr rfl
  · exact Or.inl rfl

/-- C10: when the argilla import fails the publishing step is skipped
silently: the main process still performs the Hub push first, no argilla event
occurs, the final barrier is still reached by every process, and the
non-argilla events are exactly those of a run where the import succeeds. -/
theorem scriptTail_import_failure :
    scriptTail true false = [ScriptEvent.hubPush, ScriptEvent.barrier] ∧
    scriptTail false false = [ScriptEvent.barrier] ∧
    (∀ m, (scriptTail m false).filter (fun e => !(isArgillaEvent e))
        = (scriptTail m true).filter (fun e => !(isArgillaEvent e))) ∧
    (∀ m, (scriptTail m false).filter isArgillaEvent = []) ∧
    (∀ m, ScriptEvent.barrier ∈ scriptTail m false) := by
  decide

theorem lookupResult_mem {L : Type} {id : Nat} {l : L} :
    ∀ {rs : List (Nat × L)}, lookupResult id rs = some l → (id, l) ∈ rs
  | [], h => by cases h
  | (j, x) :: tl, h => by
      by_cases hj : j = id
      · subst hj
        rw [lookupResult, if_pos rfl] at h
        cases h
        exact List.Mem.head _
      · rw [lookupResult, if_neg hj] at h
        exact List.Mem.tail _ (lookupResult_mem h)

theorem mem_lookupResult {L : Type} {id : Nat} {l : L} :
    ∀ {rs : List (Nat × L)}, (rs.map Prod.fst).Nodup → (id, l) ∈ rs →
      lookupResult id rs = some l
  | [], _, h => by cases h
  | (j, x) :: tl, hnd, h => by
      rw [List.map_cons, List.nodup_cons] at hnd
      by_cases hj : j = id
      · subst hj
        rw [lookupResult, if_pos rfl]
        cases h with
        | head => rfl
        | tail _ hmem =>
            have hj2 : (j, x).1 ∈ List.map Prod.fst tl :=
              List.mem_map.mpr ⟨(j, l), hmem, rfl⟩
            exact absurd hj2 hnd.1
      · rw [lookupResult, if_neg hj]
        cases h with
        | head => exact absurd rfl hj
        | tail _ hmem => exact mem_lookupResult hnd.2 hmem

theorem lookupResult_eq_none {L : Type} {id : Nat} :
    ∀ {rs : List (Nat × L)}, lookupResult id rs = none ↔ id ∉ rs.map Prod.fst
  | [] => by simp [lookupResult]
  | (j, x) :: tl => by
      by_cases hj : j = id
      · subst hj
        simp [lookupResult]
      · simp [lookupResult, hj, @lookupResult_eq_none L id tl, Ne.symm hj]

theorem lookupResult_perm {L : Type} {rs rs' : List (Nat × L)}
    (hperm : rs.Perm rs') (hnd : (rs.map Prod.fst).Nodup) (id : Nat) :
    lookupResult id rs = lookupResult id rs' := by
  have hnd' : (rs'.map Prod.fst).Nodup := ((hperm.map Prod.fst).nodup_iff).mp hnd
  cases h : lookupResult id rs with
  | some l =>
      have h2 : lookupResult id rs' = some l :=
        mem_lookupResult hnd' (hperm.mem_iff.mp (lookupResult_mem h))
      rw [h2]
  | none =>
      have h2 : id ∉ rs'.map Prod.fst := by
        intro hmem
        exact (lookupResult_eq_none.mp h)
          (((hperm.map Prod.fst).mem_iff).mpr hmem)
      rw [lookupResult_eq_none.mpr h2]

theorem gatherResults_perm {L : Type} (order : List Nat)
    {rs rs' : List (Nat × L)} (hperm : rs.Perm rs')
    (hnd : (rs.map Prod.fst).Nodup) :
    gatherResults order rs = gatherResults order rs' := by
  unfold gatherResults
  congr 1
  funext i
  rw [lookupResult_perm hperm hnd i]

theorem gatherResults_cons {L : Type} (hd : Nat) (tl : List Nat)
    (rs : List (Nat × L)) :
    gatherResults (hd :: tl) rs
      = match lookupResult hd rs with
        | some l => (hd, l) :: gatherResults tl rs
        | none => gatherResults tl rs := by
  unfold gatherResults
  rw [List.filterMap_cons]
  cases lookupResult hd rs <;> rfl

theorem gatherResults_map_fst {L : Type} (order : List Nat)
    (rs : List (Nat × L)) :
    (gatherResults order rs).map Prod.fst
      = order.filter (fun id => (lookupResult id rs).isSome) := by
  induction order with
  | nil => rfl
  | cons hd tl ih =>
      rw [gatherResults_cons, List.filter_cons]
      cases h : lookupResult hd rs with
      | some l => simp [h, ih]
      | none => simp [h, ih]

/-- C2: the gathered final collection lists results in the original input
order regardless of completion order: permuting the completed results (whose
input ids are distinct) leaves the gathered output unchanged, and the ids of
the gathered output are exactly the input ids with a result, in input order. -/
theorem gatherResults_ordered {L : Type} (order : List Nat)
    (rs rs' : List (Nat × L)) (hperm : rs.Perm rs')
    (hnd : (rs.map Prod.fst).Nodup) :
    gatherResults order rs = gatherResults order rs' ∧
    (gatherResults order rs).map Prod.fst
      = order.filter (fun id => (lookupResult id rs).isSome) :=
  ⟨gatherResults_perm order hperm hnd, gatherResults_map_fst order rs⟩

/-- Witness for C2: two results completed in reversed order gather
identically and in input order. -/
theorem gatherResults_ordered_witness :
    gatherResults [0, 1, 2] [(1, 10), (0, 20)]
        = gatherResults [0, 1, 2] [(0, 20), (1, 10)] ∧
    (gatherResults [0, 1, 2] [(1, 10), (0, 20)]).map Prod.fst
      = [0, 1, 2].filter
          (fun id => (lookupResult id [(1, 10), (0, 20)]).isSome) :=
  gatherResults_ordered [0, 1, 2] [(1, 10), (0, 20)] [(0, 20), (1, 10)]
    (List.Perm.swap (0, 20) (1, 10) []) (by decide)

theorem runPipeline_ok_trace {G L : Type} (inputs : List Nat) (P : Nat)
    (ck : Nat → Option (Progress G L)) (b : Backends G L)
    (parts : List (List Nat))
    (hp : partitionWork inputs P = Except.ok parts) :
    (runPipeline inputs P ck b).1
      = (parts.map (fun part => (runWorker ck b part).1)).flatten
          ++ [Event.gatherDone, Event.publish 0] := by
  unfold runPipeline
  rw [hp]

theorem runPipeline_error_trace {G L : Type} (inputs : List Nat) (P : Nat)
    (ck : Nat → Option (Progress G L)) (b : Backends G L) (e : ConfigError)
    (hp : partitionWork inputs P = Except.error e) :
    (runPipeline inputs P ck b).1 = [] := by
  unfold runPipeline
  rw [hp]

theorem runInput_genCall {G L : Type} {ck : Nat → Option (Progress G L)}
    {b : Backends G L} {i j : Nat}
    (h : Event.genCall j ∈ (runInput ck b i).1) : ck j = none := by
  cases hc : ck i with
  | none =>
      simp only [runInput, hc] at h
      simp at h
      subst h
      exact hc
  | some p =>
      cases p with
      | generated g =>
          simp only [runInput, hc] at h
          simp at h
      | labelled l =>
          simp only [runInput, hc] at h
          simp at h

theorem runWorker_mem {G L : Type} {ck : Nat → Option (Progress G L)}
    {b : Backends G L} {e : Event} :
    ∀ {ids : List Nat}, e ∈ (runWorker ck b ids).1 →
      ∃ i ∈ ids, e ∈ (runInput ck b i).1
  | [], h => by cases h
  | id :: ids, h => by
      simp only [runWorker, List.mem_append] at h
      cases h with
      | inl h => exact ⟨id, List.Mem.head _, h⟩
      | inr h =>
          obtain ⟨i, hi, hmem⟩ := runWorker_mem h
          exact ⟨i, List.Mem.tail _ hi, hmem⟩

theorem runPipeline_genCall {G L : Type} {inputs : List Nat} {P : Nat}
    {ck : Nat → Option (Progress G L)} {b : Backends G L} {j : Nat}
    (h : Event.genCall j ∈ (runPipeline inputs P ck b).1) : ck j = none := by
  cases hp : partitionWork inputs P with
  | error e =>
      rw [runPipeline_error_trace inputs P ck b e hp] at h
      cases h
  | ok parts =>
      rw [runPipeline_ok_trace inputs P ck b parts hp] at h
      rcases List.mem_append.mp h with h | h
      · obtain ⟨evs, hevs, hmem⟩ := List.mem_flatten.mp h
        obtain ⟨part, hpart, rfl⟩ := List.mem_map.mp hevs
        obtain ⟨i, hi, hmem2⟩ := runWorker_mem hmem
        exact runInput_genCall hmem2
      · simp at h

/-- C3: on a resumed run, the generation backend is never invoked again for an
input whose checkpoint entry is at stage generated or labelled: no genCall
event for such an id appears anywhere in the run's trace; an input
checkpointed as labelled is skipped entirely (no events, its stored label
reused) and an input checkpointed as generated goes straight to labelling,
reusing the stored generation result. -/
theorem resume_skips_generation {G L : Type} (inputs : List Nat) (P : Nat)
    (ck : Nat → Option (Progress G L)) (b : Backends G L) (id : Nat)
    (h : ck id ≠ none) :
    Event.genCall id ∉ (runPipeline inputs P ck b).1 ∧
    (∀ l, ck id = some (Progress.labelled l) → runInput ck b id = ([], l)) ∧
    (∀ g, ck id = some (Progress.generated g) →
        runInput ck b id
          = ([Event.labelCall id, Event.checkpointWrite id Stage.labelled],
             b.lab id g)) := by
  refine ⟨fun hmem => h (runPipeline_genCall hmem), ?_, ?_⟩
  · intro l hl
    simp [runInput, hl]
  · intro g hg
    simp [runInput, hg]

/-- A concrete checkpoint mapping for witnesses: input 0 was checkpointed as
generated with stored result 5, input 1 as labelled with stored label 7. -/
def witnessCk : Nat → Option (Progress Nat Nat) := fun i =>
  if i = 0 then some (Progress.generated 5)
  else if i = 1 then some (Progress.labelled 7)
  else none

/-- Concrete backends for witnesses. -/
def witnessBackends : Backends Nat Nat :=
  { gen := fun i => i + 100, lab := fun i g => i + g }

/-- Witness for C3: a resumed three-input run never regenerates input 0. -/
theorem resume_skips_generation_witness :
    Event.genCall 0 ∉ (runPipeline [0, 1, 2] 2 witnessCk witnessBackends).1 ∧
    (∀ l, witnessCk 0 = some (Progress.labelled l) →
        runInput witnessCk witnessBackends 0 = ([], l)) ∧
    (∀ g, witnessCk 0 = some (Progress.generated g) →
        runInput witnessCk witnessBackends 0
          = ([Event.labelCall 0, Event.checkpointWrite 0 Stage.labelled],
             witnessBackends.lab 0 g)) :=
  resume_skips_generation [0, 1, 2] 2 witnessCk witnessBackends 0 (by decide)

theorem runInput_worker_event {G L : Type} {ck : Nat → Option (Progress G L)}
    {b : Backends G L} {i : Nat} {e : Event}
    (h : e ∈ (runInput ck b i).1) :
    e ≠ Event.gatherDone ∧ ∀ w, e ≠ Event.publish w := by
  cases hc : ck i with
  | none =>
      simp only [runInput, hc, List.mem_cons, List.not_mem_nil, or_false] at h
      rcases h with rfl | rfl | rfl | rfl <;> exact ⟨by simp, fun w => by simp⟩
  | some p =>
      cases p with
      | generated g =>
          simp only [runInput, hc, List.mem_cons, List.not_mem_nil,
            or_false] at h
          rcases h with rfl | rfl <;> exact ⟨by simp, fun w => by simp⟩
      | labelled l =>
          simp only [runInput, hc] at h
          cases h

/-- C7: for every valid run, the publishing sink is invoked exactly once, only
after the result gatherer has completed, and only by the single elected
publisher (worker 0, the main process): the trace is the worker events
followed by gatherDone and then the unique publish event, and no gatherDone or
publish event occurs among the worker events. -/
theorem publish_once_after_gather {G L : Type} (inputs : List Nat) (P : Nat)
    (ck : Nat → Option (Progress G L)) (b : Backends G L)
    (h1 : 1 ≤ P) (h2 : P ≤ inputs.length) :
    ∃ pre, (runPipeline inputs P ck b).1
        = pre ++ [Event.gatherDone, Event.publish 0] ∧
      Event.gatherDone ∉ pre ∧ ∀ w, Event.publish w ∉ pre := by
  have hcond : ¬ (P = 0 ∨ inputs.length < P) := by
    push_neg
    exact ⟨Nat.one_le_iff_ne_zero.mp h1, h2⟩
  have hp : partitionWork inputs P = Except.ok (splitEven inputs P) := by
    unfold partitionWork
    rw [if_neg hcond]
  refine ⟨((splitEven inputs P).map
      (fun part => (runWorker ck b part).1)).flatten,
    runPipeline_ok_trace inputs P ck b _ hp, ?_, ?_⟩
  · intro hmem
    obtain ⟨evs, hevs, hmem2⟩ := List.mem_flatten.mp hmem
    obtain ⟨part, hpart, rfl⟩ := List.mem_map.mp hevs
    obtain ⟨i, hi, hmem3⟩ := runWorker_mem hmem2
    exact (runInput_worker_event hmem3).1 rfl
  · intro w hmem
    obtain ⟨evs, hevs, hmem2⟩ := List.mem_flatten.mp hmem
    obtain ⟨part, hpart, rfl⟩ := List.mem_map.mp hevs
    obtain ⟨i, hi, hmem3⟩ := runWorker_mem hmem2
    exact (runInput_worker_event hmem3).2 w rfl

/-- Witness for C7: a three-input run with two workers publishes exactly once,
after gathering, from worker 0. -/
theorem publish_once_after_gather_witness :
    ∃ pre, (runPipeline [0, 1, 2] 2 witnessCk witnessBackends).1
        = pre ++ [Event.gatherDone, Event.publish 0] ∧
      Event.gatherDone ∉ pre ∧ ∀ w, Event.publish w ∉ pre :=
  publish_once_after_gather [0, 1, 2] 2 witnessCk witnessBackends
    (by decide) (by decide)

theorem retryCall_of_fail {L : Type} {call : Nat → Nat → Option L} {f : Nat}
    (hfail : ∀ a, call f a = none) :
    ∀ (fuel attempt : Nat), retryCall call f attempt fuel = none
  | 0, _ => rfl
  | fuel + 1, attempt => by
      simp only [retryCall, hfail attempt]
      exact retryCall_of_fail hfail fuel (attempt + 1)

theorem retryCall_first_some {L : Type} {call : Nat → Nat → Option L}
    {id : Nat} {l : L} (h : call id 0 = some l) (fuel : Nat) :
    retryCall call id 0 (fuel + 1) = some l := by
  simp only [retryCall, h]

theorem length_filter_not_add {α : Type} (p : α → Bool) (l : List α) :
    (l.filter p).length + (l.filter (fun a => !(p a))).length = l.length := by
  induction l with
  | nil => rfl
  | cons hd tl ih =>
      cases h : p hd <;> simp [List.filter_cons, h] <;> omega

theorem length_filter_map_eq {α β : Type} (g : α → β) (p : β → Bool)
    (q : α → Bool) :
    ∀ (l : List α), (∀ a ∈ l, p (g a) = q a) →
      ((l.map g).filter p).length = (l.filter q).length
  | [], _ => rfl
  | hd :: tl, h => by
      have ih := length_filter_map_eq g p q tl
        (fun a ha => h a (List.Mem.tail _ ha))
      rw [List.map_cons, List.filter_cons, List.filter_cons,
        h hd (List.Mem.head _)]
      cases hq : q hd <;> simp [hq, ih]

theorem filter_eq_single {batch : List Nat} {f : Nat} (hnd : batch.Nodup)
    (hmem : f ∈ batch) :
    (batch.filter (fun id => id == f)).length = 1 := by
  induction batch with
  | nil => cases hmem
  | cons hd tl ih =>
      rw [List.nodup_cons] at hnd
      rw [List.filter_cons]
      by_cases h : hd = f
      · subst h
        have hnil : tl.filter (fun id => id == hd) = [] := by
          rw [List.filter_eq_nil_iff]
          intro a ha hbeq
          exact hnd.1 ((eq_of_beq hbeq) ▸ ha)
        simp [hnil]
      · have hb : (hd == f) = false := by
          simp [h]
        rw [hb]
        cases hmem with
        | head => exact absurd rfl h
        | tail _ hm => simpa using ih hnd.2 hm

/-- C4: a permanently failing input does not abort or suppress its siblings:
labelling a batch of ten distinct inputs in which one input's remote calls
always fail and the other nine succeed yields exactly nine label results plus
one per-input failure marker, ten outcomes in total. -/
theorem labelBatch_isolation {L : Type} (call : Nat → Nat → Option L)
    (retryLimit : Nat) (batch : List Nat) (f : Nat)
    (hlen : batch.length = 10) (hnd : batch.Nodup) (hmem : f ∈ batch)
    (hfail : ∀ a, call f a = none)
    (hok : ∀ id ∈ batch, id ≠ f → ∃ l, call id 0 = some l) :
    (labelBatch call retryLimit batch).length = 10 ∧
    ((labelBatch call retryLimit batch).filter
        (fun p => isFailure p.2)).length = 1 ∧
    ((labelBatch call retryLimit batch).filter
        (fun p => !(isFailure p.2))).length = 9 := by
  have hpred : ∀ id ∈ batch,
      isFailure (labelOne call retryLimit id).2 = (id == f) := by
    intro id hid
    by_cases h : id = f
    · subst h
      unfold labelOne
      rw [retryCall_of_fail hfail (retryLimit + 1) 0]
      simp [isFailure]
    · obtain ⟨l, hl⟩ := hok id hid h
      unfold labelOne
      rw [retryCall_first_some hl retryLimit]
      simp [isFailure, h]
  have hlen2 : (labelBatch call retryLimit batch).length = 10 := by
    unfold labelBatch
    rw [List.length_map]
    exact hlen
  have hfailcount :
      ((labelBatch call retryLimit batch).filter
        (fun p => isFailure p.2)).length = 1 :=
    calc ((labelBatch call retryLimit batch).filter
            (fun p => isFailure p.2)).length
        = (batch.filter (fun id => id == f)).length :=
          length_filter_map_eq (labelOne call retryLimit)
            (fun p => isFailure p.2) (fun id => id == f) batch hpred
      _ = 1 := filter_eq_single hnd hmem
  refine ⟨hlen2, hfailcount, ?_⟩
  have hsum := length_filter_not_add
    (fun p : Nat × LabelOutcome L => isFailure p.2)
    (labelBatch call retryLimit batch)
  omega

/-- A concrete remote-call function for the C4 witness: input 3 always fails,
every other input succeeds on its first attempt. -/
def witnessCall (id : Nat) (_attempt : Nat) : Option Nat :=
  if id = 3 then none else some id

/-- Witness for C4: a ten-input batch whose input 3 permanently fails yields
ten outcomes: one failure marker and nine label results. -/
theorem labelBatch_isolation_witness :
    (labelBatch witnessCall 2 [0, 1, 2, 3, 4, 5, 6, 7, 8, 9]).length = 10 ∧
    ((labelBatch witnessCall 2 [0, 1, 2, 3, 4, 5, 6, 7, 8, 9]).filter
        (fun p => isFailure p.2)).length = 1 ∧
    ((labelBatch witnessCall 2 [0, 1, 2, 3, 4, 5, 6, 7, 8, 9]).filter
        (fun p => !(isFailure p.2))).length = 9 :=
  labelBatch_isolation witnessCall 2 [0, 1, 2, 3, 4, 5, 6, 7, 8, 9] 3
    (by decide) (by decide) (by decide)
    (fun _ => rfl)
    (fun id _ hne => ⟨id, if_neg hne⟩)

end Distilabel
